import Mathlib

/-!
Verification of the message-budgeting core of Radar_CMC_AI.

Python strings are modelled as lists of Unicode code points (`Str := List Char`);
`len` is `List.length`, slicing is `List.take`/`List.drop` (with a helper for
negative stops), and the regex scans of the source are modelled as explicit
character-list scans.  Each Python module is one namespace; definitions keep
the source names.
-/

set_option maxRecDepth 10000

abbrev Str := List Char

def pstr (s : String) : Str := s.data

/-- Python str whitespace (used by str.strip, str.split and, as an
approximation, by the regex class backslash-s, which matches the same set). -/
def isSpaceChar (c : Char) : Bool :=
  decide ((9 ≤ c.toNat ∧ c.toNat ≤ 13) ∨ (28 ≤ c.toNat ∧ c.toNat ≤ 31) ∨
    c.toNat = 32 ∨ c.toNat = 133 ∨ c.toNat = 160 ∨ c.toNat = 5760 ∨
    (8192 ≤ c.toNat ∧ c.toNat ≤ 8202) ∨ c.toNat = 8232 ∨ c.toNat = 8233 ∨
    c.toNat = 8239 ∨ c.toNat = 8287 ∨ c.toNat = 12288)

/-- ASCII decimal digit (models the regex class backslash-d; Python would also
accept other Unicode decimal digits, which no claim depends on). -/
def isDigitChar (c : Char) : Bool := decide (48 ≤ c.toNat ∧ c.toNat ≤ 57)

/-- ASCII uppercase letter (regex class A-Z). -/
def isUpperChar (c : Char) : Bool := decide (65 ≤ c.toNat ∧ c.toNat ≤ 90)

/-- Sentence terminators . ! ? -/
def isTermChar (c : Char) : Bool := c = '.' ∨ c = '!' ∨ c = '?'

/-- Python str.strip(): drop leading and trailing whitespace. -/
def pyStrip (s : Str) : Str :=
  ((s.dropWhile isSpaceChar).reverse.dropWhile isSpaceChar).reverse

/-- Python str.rstrip(): drop trailing whitespace. -/
def pyRstrip (s : Str) : Str :=
  (s.reverse.dropWhile isSpaceChar).reverse

/-- Python str.lower(), restricted to ASCII (Python also lowercases other
scripts, e.g. the Kelvin sign; the inputs the claims evaluate are unaffected). -/
def pyLower (s : Str) : Str :=
  s.map fun c => if 65 ≤ c.toNat ∧ c.toNat ≤ 90 then Char.ofNat (c.toNat + 32) else c

/-- Python s[:n] for a possibly negative stop n (negative counts from the end). -/
def pyTakeInt (s : Str) (n : Int) : Str :=
  if n < 0 then s.take (s.length - (-n).toNat) else s.take n.toNat

/-- Python s.split(sep) for a one-character separator: keeps empty pieces. -/
def splitOnCharAux (sep : Char) : List Char → List Char → List Str
  | [], cur => [cur.reverse]
  | c :: cs, cur =>
    if c = sep then cur.reverse :: splitOnCharAux sep cs []
    else splitOnCharAux sep cs (c :: cur)

def splitOnChar (sep : Char) (s : Str) : List Str := splitOnCharAux sep s []

/-- Python s.split() with no argument: split on whitespace runs, no empties. -/
def pySplitAux : List Char → List Char → List Str
  | [], cur => if cur = [] then [] else [cur.reverse]
  | c :: cs, cur =>
    if isSpaceChar c then
      if cur = [] then pySplitAux cs [] else cur.reverse :: pySplitAux cs []
    else pySplitAux cs (c :: cur)

def pySplit (s : Str) : List Str := pySplitAux s []

/-- Python " ".join(l). -/
def joinSpace : List Str → Str
  | [] => []
  | [t] => t
  | t :: rest => t ++ ' ' :: joinSpace rest

/-- Python "\n\n".join(l). -/
def joinPar : List Str → Str
  | [] => []
  | [t] => t
  | t :: rest => t ++ pstr "\n\n" ++ joinPar rest

/-- needle is a contiguous prefix of hay. -/
def isPrefixStr : Str → Str → Bool
  | [], _ => true
  | _ :: _, [] => false
  | a :: as, b :: bs => a = b && isPrefixStr as bs

/-- Python `needle in hay` substring test. -/
def isInfixStr (needle : Str) : Str → Bool
  | [] => needle.isEmpty
  | c :: cs => isPrefixStr needle (c :: cs) || isInfixStr needle cs

namespace utils

/-- Membership in utils.py's EMOJI_PATTERN character class (each range of the
regex listed; the class has no + quantifier, so findall matches one code point
per occurrence). -/
def isWideUtils (c : Char) : Bool :=
  let n := c.toNat
  decide ((0x1F600 ≤ n ∧ n ≤ 0x1F64F) ∨ (0x1F300 ≤ n ∧ n ≤ 0x1F5FF) ∨
    (0x1F680 ≤ n ∧ n ≤ 0x1F6FF) ∨ (0x1F700 ≤ n ∧ n ≤ 0x1F77F) ∨
    (0x1F780 ≤ n ∧ n ≤ 0x1F7FF) ∨ (0x1F800 ≤ n ∧ n ≤ 0x1F8FF) ∨
    (0x1F900 ≤ n ∧ n ≤ 0x1F9FF) ∨ (0x1FA00 ≤ n ∧ n ≤ 0x1FA6F) ∨
    (0x1FA70 ≤ n ∧ n ≤ 0x1FAFF) ∨ (0x1F1E0 ≤ n ∧ n ≤ 0x1F1FF) ∨
    (0x2702 ≤ n ∧ n ≤ 0x27B0) ∨ (0x24C2 ≤ n ∧ n ≤ 0x1F251) ∨
    (0x2600 ≤ n ∧ n ≤ 0x26FF) ∨ (0x2700 ≤ n ∧ n ≤ 0x27BF) ∨
    (0xFE00 ≤ n ∧ n ≤ 0xFE0F) ∨ (0x1F000 ≤ n ∧ n ≤ 0x1F02F) ∨
    (0x1F0A0 ≤ n ∧ n ≤ 0x1F0FF))

/-- utils.get_twitter_length: len(text) plus one per EMOJI_PATTERN match;
the pattern matches single code points, so findall yields the in-range
code points of the text. -/
def get_twitter_length (text : Str) : Nat :=
  if text = [] then 0
  else text.length + (text.filter fun c => isWideUtils c).length

/-- Character-accumulation fallback of safe_truncate for a first word that does
not fit (the inner for-loop over chars with break). -/
def takeChars : List Char → Nat → Nat → List Char
  | [], _, _ => []
  | c :: cs, curLen, target =>
    let cl := get_twitter_length [c]
    if curLen + cl ≤ target then c :: takeChars cs (curLen + cl) target
    else []

/-- Word-accumulation loop of safe_truncate: words are joined with single
spaces while the running weighted length stays within target; on the first
non-fitting word, if nothing was accumulated, fall back to characters of that
word; in either case the loop breaks.  The accumulator mirrors the Python
`result` list of string fragments. -/
def truncWordsAux : List Str → Nat → Nat → Bool → List Str → List Str
  | [], _, _, _, acc => acc
  | w :: ws, target, curLen, first, acc =>
    let wl := get_twitter_length w
    let sp := if first then 0 else 1
    if curLen + sp + wl ≤ target then
      let acc2 := if first then acc ++ [w] else acc ++ [pstr " ", w]
      truncWordsAux ws target (curLen + sp + wl) false acc2
    else
      if acc = [] then acc ++ [takeChars w curLen target] else acc

/-- utils.safe_truncate(text, max_length, suffix). -/
def safe_truncate (text : Str) (max_length : Nat) (suffix : Str) : Str :=
  if text = [] then []
  else if get_twitter_length text ≤ max_length then text
  else
    let suffix_length := get_twitter_length suffix
    if max_length ≤ suffix_length then
      -- target_length = max_length - suffix_length <= 0: raw prefix, no suffix
      if 0 < max_length then text.take max_length else []
    else
      let target := max_length - suffix_length
      let words := splitOnChar ' ' text
      let result := truncWordsAux words target 0 true []
      let final_text := pyRstrip result.flatten
      if final_text ≠ [] ∧ get_twitter_length (final_text ++ suffix) ≤ max_length then
        final_text ++ suffix
      else final_text

/-- utils.sanitize_hashtags(hashtags, max_count, max_length). -/
def sanitize_hashtags (hashtags : Str) (max_count max_length : Nat) : Str :=
  if hashtags = [] then []
  else
    let tags := ((pySplit hashtags).filter fun t => isPrefixStr (pstr "#") t).map pyStrip
    if tags = [] then []
    else
      let valid_tags := tags.filter fun t => t.length - 1 ≤ max_length
      let result_tags := valid_tags.take max_count
      joinSpace result_tags

end utils

namespace formatting

/-- Membership in formatting.py's inline emoji pattern character class (six
ranges; the class carries a + quantifier, so findall matches maximal runs). -/
def isWideFmt (c : Char) : Bool :=
  let n := c.toNat
  decide ((0x1F600 ≤ n ∧ n ≤ 0x1F64F) ∨ (0x1F300 ≤ n ∧ n ≤ 0x1F5FF) ∨
    (0x1F680 ≤ n ∧ n ≤ 0x1F6FF) ∨ (0x1F1E0 ≤ n ∧ n ≤ 0x1F1FF) ∨
    (0x2702 ≤ n ∧ n ≤ 0x27B0) ∨ (0x24C2 ≤ n ∧ n ≤ 0x1F251))

/-- Number of maximal runs of characters satisfying p (= number of findall
matches of a +-quantified character class); the flag records whether the
previous character was inside a run. -/
def countRunsAux (p : Char → Bool) : List Char → Bool → Nat
  | [], _ => 0
  | c :: cs, inRun =>
    if p c then (if inRun then 0 else 1) + countRunsAux p cs true
    else countRunsAux p cs false

/-- formatting.get_twitter_length: len(text) + number of emoji-pattern matches
(one per maximal run of in-class code points). -/
def get_twitter_length (text : Str) : Nat :=
  if text = [] then 0
  else text.length + countRunsAux isWideFmt text false

/-- formatting.safe_str(value, default, max_length); max_length = 0 models the
falsy no-cap case; str(value) of a string input cannot raise. -/
def safe_str (value : Option Str) (default : Str) (max_length : Nat) : Str :=
  match value with
  | none => default
  | some v =>
    let result := pyStrip v
    if max_length ≠ 0 ∧ result.length > max_length then result.take max_length
    else result

def TITLE_EMOJI_MAP : List (Str × Str) :=
  [(pstr "Crypto Insights", pstr "💡"),
   (pstr "Market Analysis", pstr "📊"),
   (pstr "Daily Market Sentiment", pstr "🎭"),
   (pstr "Upcoming Crypto Events", pstr "📅"),
   (pstr "Bullish Crypto Watchlist", pstr "🚀"),
   (pstr "Trending Crypto Narratives", pstr "🔥"),
   (pstr "Altcoin Performance", pstr "⚡")]

/-- TITLE_EMOJI_MAP.get(title, "📰"). -/
def titleEmojiGet (t : Str) : Str :=
  match TITLE_EMOJI_MAP.find? fun p => p.1 == t with
  | some p => p.2
  | none => pstr "📰"

/-- CONTEXT_PATTERNS after Python's stable sort by priority, with each
pattern.split of the vertical bar precomputed into its word list. -/
def contextPatternsSorted : List (List Str × Str) :=
  [([pstr "bullish", pstr "rally", pstr "surge", pstr "pump", pstr "moon"], pstr "🚀"),
   ([pstr "bearish", pstr "dump", pstr "crash", pstr "decline", pstr "drop"], pstr "🐻"),
   ([pstr "liquidation", pstr "liquidated", pstr "rekt"], pstr "🔥"),
   ([pstr "whale", pstr "whales"], pstr "🐋"),
   ([pstr "ai", pstr "artificial intelligence"], pstr "🤖"),
   ([pstr "bitcoin", pstr "btc"], pstr "₿"),
   ([pstr "ethereum", pstr "eth"], pstr "💎"),
   ([pstr "solana", pstr "sol"], pstr "🦎"),
   ([pstr "defi", pstr "decentralized finance"], pstr "✨")]

/-- Loop of get_context_emojis: scan patterns in sorted order, appending each
emoji whose word list hits the lowered text, skipping duplicates, stopping at
max_count. -/
def contextScan : List (List Str × Str) → Str → Nat → List Str → List Str
  | [], _, _, found => found
  | (words, e) :: ps, tl, maxc, found =>
    if e ∈ found then contextScan ps tl maxc found
    else if words.any fun w => isInfixStr w tl then
      let f2 := found ++ [e]
      if maxc ≤ f2.length then f2 else contextScan ps tl maxc f2
    else contextScan ps tl maxc found

/-- formatting.get_context_emojis(text, max_count); text is limited to its
first EMOJI_DETECTION_TEXT_LIMIT = 2000 characters and lowercased. -/
def get_context_emojis (text : Str) (max_count : Nat) : List Str :=
  if text = [] then []
  else contextScan contextPatternsSorted (pyLower (text.take 2000)) max_count []

/-- formatting.detect_price_change_emoji(line): substring tests. -/
def detect_price_change_emoji (line : Str) : Str :=
  if isInfixStr (pstr "+") line || isInfixStr (pstr "up") line ||
      isInfixStr (pstr "↑") line then pstr "🟢"
  else if isInfixStr (pstr "-") line || isInfixStr (pstr "down") line ||
      isInfixStr (pstr "↓") line then pstr "🔴"
  else pstr "•"

/-- Second alternative of LIST_ITEM_PATTERN: digits, a dot, then whitespace
(anchored at the start); returns the match length. -/
def digitBranchLen (l : Str) : Option Nat :=
  let d := (l.takeWhile isDigitChar).length
  if d = 0 then none
  else
    match l.drop d with
    | '.' :: rest =>
      let k := (rest.takeWhile isSpaceChar).length
      if k = 0 then none else some (d + 1 + k)
    | _ => none

/-- Match length of LIST_ITEM_PATTERN at the start of the line: a dash, bullet
or star followed by whitespace, or the digit alternative. -/
def listItemMatchLen (l : Str) : Option Nat :=
  match l with
  | [] => none
  | c :: cs =>
    if c = '-' ∨ c = '•' ∨ c = '*' then
      let k := (cs.takeWhile isSpaceChar).length
      if k = 0 then digitBranchLen l else some (1 + k)
    else digitBranchLen l

/-- CRYPTO_PRICE_PATTERN.match: 2 to 10 uppercase letters (a longer maximal
run cannot match, since the character after a shorter chosen prefix would be
another uppercase letter), optional spaces, an opening parenthesis, an
optional sign and a digit. -/
def cryptoPriceMatch (l : Str) : Bool :=
  let u := (l.takeWhile isUpperChar).length
  if 2 ≤ u ∧ u ≤ 10 then
    match (l.drop u).dropWhile isSpaceChar with
    | '(' :: rest =>
      match rest with
      | c :: rest2 =>
        if c = '+' ∨ c = '-' then
          match rest2 with
          | d :: _ => isDigitChar d
          | [] => false
        else isDigitChar c
      | [] => false
    | _ => false
  else false

/-- Line scan of extract_bullet_points. -/
def bulletScan : List Str → List Str
  | [] => []
  | l :: ls =>
    let line := pyStrip l
    if line = [] then bulletScan ls
    else if isPrefixStr (pstr "Alpha Take") line ∨ isPrefixStr (pstr "Context:") line then
      bulletScan ls
    else if (listItemMatchLen line).isSome ∨ cryptoPriceMatch line then
      let clean := pyStrip (line.drop ((listItemMatchLen line).getD 0))
      if clean ≠ [] ∧ clean.length > 10 then clean :: bulletScan ls else bulletScan ls
    else bulletScan ls

def extract_bullet_points (text : Str) : List Str :=
  bulletScan (splitOnChar '\n' text)

/-- Loop of extract_intro_sentence: find the first substantive line, skipping
Alpha-Take lines and, after one, Context lines and blanks. -/
def introScan : List Str → Bool → Option Str
  | [], _ => none
  | l :: ls, skipAlpha =>
    if isInfixStr (pstr "Alpha Take") l then introScan ls true
    else if skipAlpha ∧ (isPrefixStr (pstr "Context:") l ∨ pyStrip l = []) then
      introScan ls skipAlpha
    else if pyStrip l ≠ [] then some l
    else introScan ls skipAlpha

/-- Anchored match of one non-terminator run followed by a terminator (the
intro-sentence regex); returns group 1. -/
def introMatch (l : Str) : Option Str :=
  let k := (l.takeWhile fun c => ¬ isTermChar c).length
  if 1 ≤ k ∧ k < l.length then some (l.take (k + 1)) else none

/-- formatting.extract_intro_sentence(text). -/
def extract_intro_sentence (text : Str) : Str :=
  match introScan (splitOnChar '\n' text) false with
  | none => text.take 100
  | some first_line =>
    let fallback :=
      if first_line.length > 200 then first_line.take 197 ++ pstr "..."
      else first_line
    match introMatch first_line with
    | some m =>
      let intro := pyStrip m
      if get_twitter_length intro ≤ 200 then intro else fallback
    | none => fallback

/-- Per-line classification of format_telegram_improved (price line, list
item, short heading, plain). -/
def processTelegramLine (line : Str) : Str :=
  if cryptoPriceMatch line then detect_price_change_emoji line ++ pstr " " ++ line
  else if (listItemMatchLen line).isSome then
    pstr "• " ++ line.drop ((listItemMatchLen line).getD 0)
  else if ((match line.getLast? with
      | some c => decide (c = ':' ∨ c = '–' ∨ c = '—')
      | none => false) && decide (line.length < 50)) then
    pstr "<b>" ++ line ++ pstr "</b>"
  else line

/-- Line loop of format_telegram_improved: strip, drop blanks, stop after
MAX_LINE_COUNT = 100 processed lines. -/
def processLines : List Str → Nat → List Str
  | [], _ => []
  | l :: ls, cnt =>
    if 100 ≤ cnt then []
    else
      let line := pyStrip l
      if line = [] then processLines ls cnt
      else processTelegramLine line :: processLines ls (cnt + 1)

/-- Message assembly of format_telegram_improved on already-sanitized fields,
before the final hard length check. -/
def telegramAssemble (title text hashtags : Str) : Str :=
  let emoji := titleEmojiGet title
  let header := emoji ++ pstr " <b>" ++ title ++ pstr "</b>"
  let formatted := joinPar (processLines (splitOnChar '\n' text) 0)
  let message := header ++ pstr "\n\n" ++ formatted
  if hashtags ≠ [] then message ++ pstr "\n\n" ++ hashtags else message

/-- formatting.format_telegram_improved(title, text, hashtags); the final
branch hard-truncates to MAX_TELEGRAM_LENGTH - 3 = 3997 code points plus an
ellipsis. -/
def format_telegram_improved (title text hashtags : Str) : Str :=
  let title := safe_str (some title) (pstr "Crypto Update") 100
  let text := safe_str (some text) [] 5000
  let hashtags := safe_str (some hashtags) [] 200
  if text = [] then pstr "<b>" ++ title ++ pstr "</b>\n\n" ++ hashtags
  else
    let message := telegramAssemble title text hashtags
    if message.length > 4000 then message.take 3997 ++ pstr "..." else message

/-- Point formatting inside the thread batching loop, including the 100-char
cap. -/
def formatPoint (p : Str) : Str :=
  let f :=
    if cryptoPriceMatch p then detect_price_change_emoji p ++ pstr " " ++ p
    else pstr "• " ++ p
  if f.length > 100 then f.take 97 ++ pstr "..." else f

/-- Inner batching loop of format_twitter_thread continued with a non-empty
batch: take further points while fewer than 3 are batched and the joined
batch stays within 280 weighted units; returns the batch and the number of
extra points consumed. -/
def buildBatchExt : List Str → List Str → List Str × Nat
  | [], batch => (batch, 0)
  | p :: ps, batch =>
    if 3 ≤ batch.length then (batch, 0)
    else
      let f := formatPoint p
      if get_twitter_length (joinPar (batch ++ [f])) > 280 then (batch, 0)
      else
        let r := buildBatchExt ps (batch ++ [f])
        (r.1, r.2 + 1)

/-- First inner-loop iteration on an empty batch: an oversize single point is
clipped to 270 code points plus an ellipsis and consumed; otherwise the point
opens the batch and the loop continues.  Returns the batch and the number of
points consumed (always at least one). -/
def buildBatch1 (p : Str) (ps : List Str) : List Str × Nat :=
  let f := formatPoint p
  if get_twitter_length f > 280 then ([f.take 270 ++ pstr "..."], 1)
  else
    let r := buildBatchExt ps [f]
    (r.1, r.2 + 1)

/-- Outer batching loop: while points remain and fewer than
MAX_THREAD_TWEETS - 1 = 4 tweets exist, build one batch per iteration and
append its joined text as a tweet. -/
def batchLoop (rem tweets : List Str) : List Str :=
  match rem with
  | [] => tweets
  | p :: ps =>
    if tweets.length < 4 then
      let r := buildBatch1 p ps
      batchLoop (ps.drop (r.2 - 1))
        (if r.1 = [] then tweets else tweets ++ [joinPar r.1])
    else tweets
termination_by rem.length
decreasing_by
  simp only [List.length_cons, List.length_drop]
  omega

mutual
/-- Scan for the sentence-splitting regex of the thread fallback: a
whitespace run preceded by a terminator separates sentences. -/
def reSplitAux : List Char → List Char → Char → List Str
  | [], cur, _ => [cur.reverse]
  | c :: cs, cur, prev =>
    if isSpaceChar c ∧ isTermChar prev then cur.reverse :: reSplitSkip cs
    else reSplitAux cs (c :: cur) c

/-- Consume the rest of the whitespace run after a split point. -/
def reSplitSkip : List Char → List Str
  | [] => [[]]
  | c :: cs => if isSpaceChar c then reSplitSkip cs else reSplitAux cs [c] c
end

def reSplitAfterTerm (s : Str) : List Str := reSplitAux s [] ' '

/-- First-tweet assembly of format_twitter_thread (used for both the first
attempt and the rebuilt overflow version). -/
def tweet1Of (emoji title context_str intro : Str) : Str :=
  emoji ++ pstr " " ++ title ++
  (if context_str ≠ [] then pstr " " ++ context_str else []) ++
  pstr "\n\n" ++ intro ++ pstr "\n\n🧵👇"

/-- Python str() of an optional string inside an f-string: None renders as
"None". -/
def renderOpt (o : Option Str) : Str :=
  match o with
  | some s => s
  | none => pstr "None"

/-- Closing tweet of format_twitter_thread carrying Alpha Take, Context tag
and hashtags, with the overflow shortening branch. -/
def finalAlphaTweet (alpha : Str) (context_tag : Option Str) (hashtags : Str) : Str :=
  let ctxTruthy : Bool := match context_tag with | some c => decide (c ≠ []) | none => false
  let base := pstr "◼ Alpha Take\n\n" ++ alpha
  let base := if ctxTruthy then base ++ pstr "\n\nContext: " ++ (context_tag.getD []) else base
  let final_tweet := base ++ pstr "\n\n" ++ hashtags
  if get_twitter_length final_tweet > 280 then
    let max_alpha : Int := 280 -
      (get_twitter_length (pstr "◼ Alpha Take\n\n\n\nContext: " ++ renderOpt context_tag ++
        pstr "\n\n" ++ hashtags) : Int) - 10
    let short_alpha := pyTakeInt alpha (max_alpha - 3) ++ pstr "..."
    let ft := pstr "◼ Alpha Take\n\n" ++ short_alpha
    let ft := if ctxTruthy then ft ++ pstr "\n\nContext: " ++ (context_tag.getD []) else ft
    ft ++ pstr "\n\n" ++ hashtags
  else final_tweet

/-- First tweet and content batches of format_twitter_thread on
already-sanitized fields: the intro tweet (with the overflow rebuild)
followed by the batched point tweets. -/
def threadBase (title text : Str) : List Str :=
  let emoji := titleEmojiGet title
  let context_emojis := get_context_emojis text 2
  let intro := extract_intro_sentence text
  let context_str := if context_emojis ≠ [] then joinSpace context_emojis else []
  let tweet1 := tweet1Of emoji title context_str intro
  let tweet1 :=
    if get_twitter_length tweet1 > 280 then
      let max_intro : Int := 280 -
        (get_twitter_length (emoji ++ pstr " " ++ title ++ pstr " " ++ context_str ++
          pstr "\n\n\n\n🧵👇") : Int) - 5
      tweet1Of emoji title context_str (pyTakeInt text (max_intro - 3) ++ pstr "...")
    else tweet1
  let points := extract_bullet_points text
  let points :=
    if points = [] then
      (((reSplitAfterTerm text).map pyStrip).filter fun s => s.length > 20).take 5
    else points
  if points ≠ [] then batchLoop points [tweet1] else [tweet1]

/-- Tweet-list construction of format_twitter_thread on already-sanitized
fields: the base tweets plus the closing Alpha-Take or hashtags tweet; the
length-2 validity check happens in the caller. -/
def threadTweets (title text hashtags : Str)
    (alpha_take context_tag : Option Str) : List Str :=
  let tweets := threadBase title text
  let alphaTruthy : Bool :=
    match alpha_take with | some a => decide (a ≠ []) | none => false
  if alphaTruthy then tweets ++ [finalAlphaTweet (alpha_take.getD []) context_tag hashtags]
  else if hashtags ≠ [] then tweets ++ [hashtags]
  else tweets

/-- formatting.format_twitter_thread(title, text, hashtags, alpha_take,
context_tag); returns the tweet list or a rejection (None). -/
def format_twitter_thread (title text hashtags : Str)
    (alpha_take context_tag : Option Str) : Option (List Str) :=
  let title := safe_str (some title) (pstr "Update") 50
  let text := safe_str (some text) [] 5000
  let hashtags := safe_str (some hashtags) [] 150
  if text = [] then none
  else
    let tweets := threadTweets title text hashtags alpha_take context_tag
    if tweets.length < 2 then none else some tweets

/-- Character loop of extract_short_text_safe: accumulate sentences ending in
a terminator once more than 20 characters were consumed, stopping at 3
sentences or at the first over-budget sentence. -/
def shortLoop : List Char → List Str → Str → Nat → Int → List Str
  | [], result, _, _, _ => result
  | c :: cs, result, current, cnt, maxL =>
    let current := current ++ [c]
    let cnt := cnt + 1
    if (c = '.' ∨ c = '!' ∨ c = '?') ∧ cnt > 20 then
      if (get_twitter_length current : Int) ≤ maxL then
        let result := result ++ [pyStrip current]
        if 3 ≤ result.length then result else shortLoop cs result [] cnt maxL
      else result
    else
      if 3 ≤ result.length then result
      else shortLoop cs result current cnt maxL

/-- formatting.extract_short_text_safe(text, max_length). -/
def extract_short_text_safe (text : Str) (max_length : Int) : Str :=
  if text = [] ∨ max_length < 10 then []
  else
    let text := pyStrip text
    if (get_twitter_length text : Int) ≤ max_length then text
    else
      let max_chars := min text.length (max_length.toNat * 2)
      let result := shortLoop (text.take max_chars) [] [] 0 max_length
      if result ≠ [] ∧ (get_twitter_length (joinSpace result) : Int) ≤ max_length then
        joinSpace result
      else pyTakeInt text (max_length - 3) ++ pstr "..."

/-- formatting.format_twitter_single(title, text, hashtags, max_len); the
final branch is the safety net clipping to 277 code points plus an ellipsis. -/
def format_twitter_single (title text hashtags : Str) (max_len : Nat) : Str :=
  let title := safe_str (some title) (pstr "Update") 50
  let text := safe_str (some text) [] 2000
  let hashtags := safe_str (some hashtags) [] 150
  if text = [] then title ++ pstr "\n\n" ++ hashtags
  else
    let emoji := titleEmojiGet title
    let context_emojis := get_context_emojis text 1
    let header :=
      match context_emojis with
      | e :: _ => emoji ++ pstr " " ++ title ++ pstr " " ++ e
      | [] => emoji ++ pstr " " ++ title
    let available : Int := (max_len : Int) -
      ((get_twitter_length header : Int) + (get_twitter_length hashtags : Int) + 6)
    let hashtags2 :=
      if available < 50 then
        let tags_list := (pySplit hashtags).take 2
        if tags_list ≠ [] then joinSpace tags_list else []
      else hashtags
    let available2 : Int :=
      if available < 50 then
        (max_len : Int) -
          ((get_twitter_length header : Int) + (get_twitter_length hashtags2 : Int) + 6)
      else available
    let short_text := extract_short_text_safe text available2
    let tweet := header ++ pstr "\n\n" ++ short_text ++ pstr "\n\n" ++ hashtags2
    if get_twitter_length tweet > 280 then tweet.take 277 ++ pstr "..." else tweet

end formatting

namespace parser

/-- parser.get_twitter_length: token-identical to the formatting.py copy
(same six ranges, same +-quantified pattern counting maximal runs). -/
def get_twitter_length (text : Str) : Nat :=
  if text = [] then 0
  else text.length + formatting.countRunsAux formatting.isWideFmt text false

/-- One-pass automaton for the first normalization of
smart_shorten_for_twitter: the regex replaces, at each newline whose
following whitespace run contains another newline, the span up to the last
newline of that run by one blank line.  The state records, after a newline,
whether a second newline was seen in the current whitespace run (matched) and
the whitespace accumulated (reversed) since the run's last newline; the
pending span is emitted when the run ends. -/
def collapseNLAux : List Char → Option (Bool × List Char) → List Char
  | [], none => []
  | [], some (matched, buf) =>
    (if matched then pstr "\n\n" else ['\n']) ++ buf.reverse
  | c :: cs, none =>
    if c = '\n' then collapseNLAux cs (some (false, []))
    else c :: collapseNLAux cs none
  | c :: cs, some (matched, buf) =>
    if c = '\n' then collapseNLAux cs (some (true, []))
    else if isSpaceChar c then collapseNLAux cs (some (matched, c :: buf))
    else (if matched then pstr "\n\n" else ['\n']) ++ buf.reverse ++
      c :: collapseNLAux cs none

/-- First normalization: newline, whitespace-star, newline-plus becomes a
blank line. -/
def collapseNL (s : List Char) : List Char := collapseNLAux s none

/-- Second normalization: runs of spaces collapse to one space (a space
directly followed by another space is dropped). -/
def collapseSpaces : List Char → List Char
  | [] => []
  | [c] => [c]
  | c :: d :: cs =>
    if c = ' ' ∧ d = ' ' then collapseSpaces (d :: cs)
    else c :: collapseSpaces (d :: cs)

/-- Normalized text of smart_shorten_for_twitter (the two re.sub passes and
the strip). -/
def normalizeForTwitter (text : Str) : Str :=
  pyStrip (collapseSpaces (collapseNL text))

/-- Scanner mode for the capture-group sentence split: accumulating a piece,
inside the terminator run of a separator, or inside its trailing whitespace. -/
inductive CapMode where
  | piece : CapMode
  | sep : CapMode
  | space : CapMode

/-- Capture-group sentence split on terminator-run-plus-whitespace (the
re.split pattern with a group): cur accumulates the current piece or, in the
separator modes, acc holds the separator seen so far (both reversed). -/
def capAux : List Char → CapMode → List Char → List Char → List Str
  | [], CapMode.piece, cur, _ => [cur.reverse]
  | [], _, piece, sep => [piece.reverse, sep.reverse, []]
  | c :: cs, CapMode.piece, cur, acc =>
    if isTermChar c then capAux cs CapMode.sep cur [c]
    else capAux cs CapMode.piece (c :: cur) acc
  | c :: cs, CapMode.sep, piece, sep =>
    if isTermChar c then capAux cs CapMode.sep piece (c :: sep)
    else if isSpaceChar c then capAux cs CapMode.space piece (c :: sep)
    else piece.reverse :: sep.reverse :: capAux cs CapMode.piece [c] []
  | c :: cs, CapMode.space, piece, sep =>
    if isSpaceChar c then capAux cs CapMode.space piece (c :: sep)
    else if isTermChar c then piece.reverse :: sep.reverse :: capAux cs CapMode.sep [] [c]
    else piece.reverse :: sep.reverse :: capAux cs CapMode.piece [c] []

/-- re.split with the captured separator: interleaved pieces and separators. -/
def reSplitCapture (s : Str) : List Str := capAux s CapMode.piece [] []

/-- The comprehension pairing each piece with its following separator,
stripping the join, and keeping pairs whose piece has content; a final
unpaired piece is dropped by the stepped range. -/
def pairJoin : List Str → List Str
  | p :: s :: rest =>
    (if pyStrip p ≠ [] then [pyStrip (p ++ s)] else []) ++ pairJoin rest
  | _ => []

/-- Word-accumulation fallback for the first over-budget sentence. -/
def smartWordLoop : List Str → List Str → Int → List Str
  | [], shortened, _ => shortened
  | w :: ws, shortened, avail =>
    if (get_twitter_length (joinSpace (shortened ++ [w])) : Int) + 3 ≤ avail then
      smartWordLoop ws (shortened ++ [w]) avail
    else shortened

/-- Sentence-accumulation loop of smart_shorten_for_twitter with its early
returns. -/
def smartSentLoop : List Str → List Str → Nat → Int → Str
  | [], result, _, _ => joinSpace result
  | s :: ss, result, curLen, avail =>
    let s := pyStrip s
    if s = [] then smartSentLoop ss result curLen avail
    else
      let sl := get_twitter_length s
      if (curLen : Int) + sl + 1 ≤ avail then
        smartSentLoop ss (result ++ [s]) (curLen + sl + 1) avail
      else if result = [] then
        let shortened := smartWordLoop (pySplit s) [] avail
        if shortened ≠ [] then joinSpace shortened ++ pstr "..."
        else pyTakeInt s (avail - 3) ++ pstr "..."
      else joinSpace result

/-- Body of smart_shorten_for_twitter after the budget ladder: compose from
the normalized text within the (possibly negative) available budget. -/
def smartComposeBody (text : Str) (available_for_text : Int) : Str :=
  if (get_twitter_length text : Int) ≤ available_for_text then text
  else smartSentLoop (pairJoin (reSplitCapture text)) [] 0 available_for_text

/-- parser.smart_shorten_for_twitter(text, title, hashtags, max_total).  The
ladder recomputes the budget exactly when a shrink branch ran, i.e. when the
budget was short and the hashtags' weighted length exceeded 80 (cut to 3
tags) or 50 (cut to 5 tags); it never signals an error. -/
def smart_shorten_for_twitter (text title hashtags : Str) (max_total : Nat) : Str :=
  let available : Int := (max_total : Int) -
    ((get_twitter_length title : Int) + (get_twitter_length hashtags : Int) + 6)
  let hashtags2 :=
    if available < 100 then
      if get_twitter_length hashtags > 80 then joinSpace ((pySplit hashtags).take 3)
      else if get_twitter_length hashtags > 50 then joinSpace ((pySplit hashtags).take 5)
      else hashtags
    else hashtags
  let available2 : Int :=
    if available < 100 ∧ 50 < get_twitter_length hashtags then
      (max_total : Int) -
        ((get_twitter_length title : Int) + (get_twitter_length hashtags2 : Int) + 6)
    else available
  smartComposeBody (normalizeForTwitter text) available2

end parser

namespace openai_cmc

/-- openai_cmc_integration.get_twitter_length: token-identical to the
formatting.py copy. -/
def get_twitter_length (text : Str) : Nat :=
  if text = [] then 0
  else text.length + formatting.countRunsAux formatting.isWideFmt text false

/-- The while loop of openai_cmc_integration.safe_truncate: drop the last
character while the weighted length exceeds the target.  fuel bounds the
iteration count; the wrapper passes the text's length, which the loop never
exceeds because every iteration shortens the text by one character, so the
fuel-exhausted case (which returns the current text like a loop exit) is
reached only at the empty text. -/
def dropLoopF : Nat → List Char → Int → List Char
  | 0, current, _ => current
  | fuel + 1, current, target =>
    if current = [] then current
    else if (get_twitter_length current : Int) > target then
      dropLoopF fuel current.dropLast target
    else current

def dropLoop (current : List Char) (target : Int) : List Char :=
  dropLoopF current.length current target

/-- Python current.rsplit(' ', 1)[0] when a space occurs: the part before the
last space. -/
def beforeLastSpace (s : Str) : Str :=
  ((s.reverse.dropWhile fun c => c ≠ ' ').drop 1).reverse

/-- openai_cmc_integration.safe_truncate(text, max_length, suffix); the
target uses len(suffix), not its weighted length. -/
def safe_truncate (text : Str) (max_length : Nat) (suffix : Str) : Str :=
  if text = [] then []
  else if get_twitter_length text ≤ max_length then text
  else
    let target : Int := (max_length : Int) - suffix.length
    let current := dropLoop text target
    if current = [] then text.take max_length
    else
      let current :=
        if (match current.getLast? with
            | some c => decide (¬ (c = ' ' ∨ c = '\n'))
            | none => false) then
          if current.any fun c => c = ' ' then beforeLastSpace current else current
        else current
      pyRstrip current ++ suffix

end openai_cmc

/-! Shared lemmas about the utils weighted length and safe_truncate. -/

theorem gtlU_eq (s : Str) :
    utils.get_twitter_length s =
      s.length + (s.filter fun c => utils.isWideUtils c).length := by
  cases s with
  | nil => rfl
  | cons c cs => simp [utils.get_twitter_length]

theorem gtlU_append (a b : Str) :
    utils.get_twitter_length (a ++ b) =
      utils.get_twitter_length a + utils.get_twitter_length b := by
  simp only [gtlU_eq, List.filter_append, List.length_append]
  omega

theorem gtlU_sublist_le (a b : Str) (h : a.Sublist b) :
    utils.get_twitter_length a ≤ utils.get_twitter_length b := by
  have h1 := h.length_le
  have h2 := (h.filter fun c => utils.isWideUtils c).length_le
  simp only [gtlU_eq]
  omega

theorem gtlU_reverse (s : Str) :
    utils.get_twitter_length s.reverse = utils.get_twitter_length s := by
  simp [gtlU_eq, List.filter_reverse]

theorem gtlU_pyRstrip_le (s : Str) :
    utils.get_twitter_length (pyRstrip s) ≤ utils.get_twitter_length s := by
  unfold pyRstrip
  rw [gtlU_reverse]
  calc utils.get_twitter_length (s.reverse.dropWhile isSpaceChar)
      ≤ utils.get_twitter_length s.reverse :=
        gtlU_sublist_le _ _ (List.dropWhile_sublist _)
    _ = utils.get_twitter_length s := gtlU_reverse s

theorem takeChars_gtl_le (cs : List Char) : ∀ cur target : Nat,
    utils.get_twitter_length (utils.takeChars cs cur target) ≤ target - cur := by
  induction cs with
  | nil => intro cur target; simp [utils.takeChars, gtlU_eq]
  | cons c cs ih =>
    intro cur target
    simp only [utils.takeChars]
    split
    · rename_i h
      have h2 := ih (cur + utils.get_twitter_length [c]) target
      have h3 : utils.get_twitter_length
          (c :: utils.takeChars cs (cur + utils.get_twitter_length [c]) target) =
          utils.get_twitter_length [c] + utils.get_twitter_length
            (utils.takeChars cs (cur + utils.get_twitter_length [c]) target) := by
        simpa using gtlU_append [c]
          (utils.takeChars cs (cur + utils.get_twitter_length [c]) target)
      omega
    · simp [gtlU_eq]

theorem truncWordsAux_gtl_le (ws : List Str) : ∀ (target curLen : Nat) (first : Bool)
    (acc : List Str), utils.get_twitter_length acc.flatten = curLen → curLen ≤ target →
    utils.get_twitter_length (utils.truncWordsAux ws target curLen first acc).flatten ≤
      target := by
  induction ws with
  | nil =>
    intro target cur first acc h1 h2
    simpa [utils.truncWordsAux, h1] using h2
  | cons w ws ih =>
    intro target cur first acc h1 h2
    cases first with
    | true =>
      simp only [utils.truncWordsAux, if_true]
      split
      · rename_i hfit
        apply ih target _ false (acc ++ [w])
        · rw [List.flatten_append, gtlU_append, h1]
          simp [gtlU_append, gtlU_eq]
        · exact hfit
      · split
        · rename_i hacc
          subst hacc
          simp only [List.nil_append, List.flatten_cons, List.flatten_nil,
            List.append_nil]
          have h0 : cur = 0 := by simpa [gtlU_eq] using h1.symm
          have h4 := takeChars_gtl_le w cur target
          omega
        · rw [h1]; exact h2
    | false =>
      simp only [utils.truncWordsAux, Bool.false_eq_true, ite_false]
      split
      · rename_i hfit
        apply ih target _ false (acc ++ [pstr " ", w])
        · rw [List.flatten_append, gtlU_append, h1]
          have hsp : utils.get_twitter_length (pstr " ") = 1 := by decide
          simp only [List.flatten_cons, List.flatten_nil, List.append_nil,
            gtlU_append, hsp]
          omega
        · exact hfit
      · split
        · rename_i hacc
          subst hacc
          simp only [List.nil_append, List.flatten_cons, List.flatten_nil,
            List.append_nil]
          have h0 : cur = 0 := by simpa [gtlU_eq] using h1.symm
          have h4 := takeChars_gtl_le w cur target
          omega
        · rw [h1]; exact h2

theorem safe_truncate_gtl_le (text : Str) (max_length : Nat) (suffix : Str)
    (h : utils.get_twitter_length suffix < max_length) :
    utils.get_twitter_length (utils.safe_truncate text max_length suffix) ≤
      max_length := by
  unfold utils.safe_truncate
  dsimp only
  split
  · simp [gtlU_eq]
  · split
    · assumption
    · split
      · omega
      · split
        · rename_i hfit
          exact hfit.2
        · have hmain := truncWordsAux_gtl_le (splitOnChar ' ' text)
            (max_length - utils.get_twitter_length suffix) 0 true []
            (by simp [gtlU_eq]) (by omega)
          have hr := gtlU_pyRstrip_le
            (utils.truncWordsAux (splitOnChar ' ' text)
              (max_length - utils.get_twitter_length suffix) 0 true []).flatten
          omega

theorem countRunsAux_true_le (p : Char → Bool) (l : List Char) :
    formatting.countRunsAux p l true ≤ formatting.countRunsAux p l false := by
  cases l with
  | nil => exact le_refl _
  | cons c cs =>
    by_cases hp : p c
    · simp [formatting.countRunsAux, hp]
    · simp [formatting.countRunsAux, hp]

theorem countRunsAux_append_le (p : Char → Bool) (b : List Char) :
    ∀ (a : List Char) (flag : Bool),
    formatting.countRunsAux p (a ++ b) flag ≤
      formatting.countRunsAux p a flag + formatting.countRunsAux p b false := by
  intro a
  induction a with
  | nil =>
    intro flag
    cases flag with
    | true => simpa [formatting.countRunsAux] using countRunsAux_true_le p b
    | false => simp [formatting.countRunsAux]
  | cons c cs ih =>
    intro flag
    by_cases hp : p c
    · simp only [List.cons_append, formatting.countRunsAux, hp, if_true, List.append_eq]
      have := ih true
      omega
    · simp only [List.cons_append, formatting.countRunsAux, hp, if_false, List.append_eq]
      exact ih false

theorem countRunsAux_le_append (p : Char → Bool) (b : List Char) :
    ∀ (a : List Char) (flag : Bool),
    formatting.countRunsAux p a flag ≤ formatting.countRunsAux p (a ++ b) flag := by
  intro a
  induction a with
  | nil => intro flag; simp [formatting.countRunsAux]
  | cons c cs ih =>
    intro flag
    by_cases hp : p c
    · simp only [List.cons_append, formatting.countRunsAux, hp, if_true, List.append_eq]
      have := ih true
      omega
    · simp only [List.cons_append, formatting.countRunsAux, hp, if_false, List.append_eq]
      exact ih false

theorem gtlO_eq (s : Str) : openai_cmc.get_twitter_length s =
    s.length + formatting.countRunsAux formatting.isWideFmt s false := by
  cases s with
  | nil => rfl
  | cons c cs => simp [openai_cmc.get_twitter_length]

theorem gtlO_append_le (a b : Str) :
    openai_cmc.get_twitter_length (a ++ b) ≤
      openai_cmc.get_twitter_length a + openai_cmc.get_twitter_length b := by
  have := countRunsAux_append_le formatting.isWideFmt b a false
  simp only [gtlO_eq, List.length_append]
  omega

theorem gtlO_prefix_le (a b : Str) :
    openai_cmc.get_twitter_length a ≤ openai_cmc.get_twitter_length (a ++ b) := by
  have := countRunsAux_le_append formatting.isWideFmt b a false
  simp only [gtlO_eq, List.length_append]
  omega

theorem pyRstrip_decomp (s : Str) : ∃ rest, s = pyRstrip s ++ rest := by
  refine ⟨(s.reverse.takeWhile isSpaceChar).reverse, ?_⟩
  unfold pyRstrip
  rw [← List.reverse_append, List.takeWhile_append_dropWhile, List.reverse_reverse]

theorem beforeLastSpace_decomp (s : Str) :
    ∃ rest, s = openai_cmc.beforeLastSpace s ++ rest := by
  unfold openai_cmc.beforeLastSpace
  refine ⟨((s.reverse.dropWhile fun c => c ≠ ' ').take 1).reverse ++
    (s.reverse.takeWhile fun c => c ≠ ' ').reverse, ?_⟩
  rw [← List.append_assoc, ← List.reverse_append, List.take_append_drop,
    ← List.reverse_append, List.takeWhile_append_dropWhile, List.reverse_reverse]

theorem dropLoopF_le : ∀ (fuel : Nat) (l : List Char) (target : Int), l.length ≤ fuel →
    openai_cmc.dropLoopF fuel l target ≠ [] →
    (openai_cmc.get_twitter_length (openai_cmc.dropLoopF fuel l target) : Int) ≤ target := by
  intro fuel
  induction fuel with
  | zero =>
    intro l target h1 h2
    have : l = [] := List.eq_nil_of_length_eq_zero (by omega)
    subst this
    exact absurd rfl h2
  | succ fuel ih =>
    intro l target h1 h2
    simp only [openai_cmc.dropLoopF] at h2 ⊢
    by_cases hl : l = []
    · rw [if_pos hl] at h2
      exact absurd hl h2
    · rw [if_neg hl] at h2 ⊢
      by_cases hgt : (openai_cmc.get_twitter_length l : Int) > target
      · rw [if_pos hgt] at h2 ⊢
        refine ih l.dropLast target ?_ h2
        have := List.length_pos.mpr hl
        simp only [List.length_dropLast]
        omega
      · rw [if_neg hgt] at h2 ⊢
        omega

theorem dropLoop_le (l : List Char) (target : Int)
    (h : openai_cmc.dropLoop l target ≠ []) :
    (openai_cmc.get_twitter_length (openai_cmc.dropLoop l target) : Int) ≤ target :=
  dropLoopF_le l.length l target le_rfl h

theorem openai_result_le (text : Str) (max_length : Nat) (suffix : Str)
    (hs : openai_cmc.get_twitter_length suffix = suffix.length)
    (hne : openai_cmc.dropLoop text ((max_length : Int) - suffix.length) ≠ []) :
    openai_cmc.get_twitter_length (openai_cmc.safe_truncate text max_length suffix) ≤
      max_length := by
  unfold openai_cmc.safe_truncate
  dsimp only
  split
  · simp [gtlO_eq, formatting.countRunsAux]
  · split
    · assumption
    · by_cases hcur : openai_cmc.dropLoop text ((max_length : Int) - suffix.length) = []
      · exact absurd hcur hne
      · have key : ∀ X : Str,
            (∃ rest, openai_cmc.dropLoop text ((max_length : Int) - suffix.length) = X ++ rest) →
            openai_cmc.get_twitter_length (pyRstrip X ++ suffix) ≤ max_length := by
          intro X hX
          obtain ⟨rest, hX⟩ := hX
          have hloop := dropLoop_le text ((max_length : Int) - suffix.length) hne
          have h1 := gtlO_append_le (pyRstrip X) suffix
          obtain ⟨r2, hr2⟩ := pyRstrip_decomp X
          have h2 : openai_cmc.get_twitter_length (pyRstrip X) ≤
              openai_cmc.get_twitter_length X := by
            conv_rhs => rw [hr2]
            exact gtlO_prefix_le (pyRstrip X) r2
          have h3 : openai_cmc.get_twitter_length X ≤
              openai_cmc.get_twitter_length
                (openai_cmc.dropLoop text ((max_length : Int) - suffix.length)) := by
            rw [hX]
            exact gtlO_prefix_le X rest
          omega
        repeat' split
        all_goals first
          | exact key _ (beforeLastSpace_decomp _)
          | exact key _ ⟨[], by simp⟩

theorem take_dropLast_eq (l : List Char) (k : Nat) (h : k ≤ l.length - 1) :
    l.dropLast.take k = l.take k := by
  rw [List.dropLast_eq_take, List.take_take]
  congr 1
  omega

theorem dropLoopF_nil_prefix_gt : ∀ (fuel : Nat) (l : List Char) (target : Int),
    l.length ≤ fuel → openai_cmc.dropLoopF fuel l target = [] →
    ∀ k, 0 < k → k ≤ l.length →
    target < (openai_cmc.get_twitter_length (l.take k) : Int) := by
  intro fuel
  induction fuel with
  | zero =>
    intro l target h1 h2 k hk1 hk2
    omega
  | succ fuel ih =>
    intro l target h1 h2 k hk1 hk2
    simp only [openai_cmc.dropLoopF] at h2
    by_cases hl : l = []
    · subst hl
      simp at hk2
      omega
    · rw [if_neg hl] at h2
      by_cases hgt : (openai_cmc.get_twitter_length l : Int) > target
      · rw [if_pos hgt] at h2
        by_cases hk3 : k = l.length
        · rw [hk3, List.take_length]
          omega
        · have hk4 : k ≤ l.dropLast.length := by
            simp only [List.length_dropLast]
            omega
          have := ih l.dropLast target (by simp only [List.length_dropLast]; omega) h2 k hk1 hk4
          rwa [take_dropLast_eq l k (by omega)] at this
      · rw [if_neg hgt] at h2
        exact absurd h2 hl

theorem dropLoopF_nil_of_prefix_gt : ∀ (fuel : Nat) (l : List Char) (target : Int),
    l.length ≤ fuel →
    (∀ k, 0 < k → k ≤ l.length →
      target < (openai_cmc.get_twitter_length (l.take k) : Int)) →
    openai_cmc.dropLoopF fuel l target = [] := by
  intro fuel
  induction fuel with
  | zero =>
    intro l target h1 h2
    have : l = [] := List.eq_nil_of_length_eq_zero (by omega)
    subst this
    rfl
  | succ fuel ih =>
    intro l target h1 h2
    simp only [openai_cmc.dropLoopF]
    by_cases hl : l = []
    · rw [if_pos hl]
      exact hl
    · rw [if_neg hl]
      have hlp := List.length_pos.mpr hl
      have hgt : (openai_cmc.get_twitter_length l : Int) > target := by
        have := h2 l.length hlp le_rfl
        rwa [List.take_length] at this
      rw [if_pos hgt]
      refine ih l.dropLast target (by simp only [List.length_dropLast]; omega) ?_
      intro k hk1 hk2
      simp only [List.length_dropLast] at hk2
      rw [take_dropLast_eq l k hk2]
      exact h2 k hk1 (by omega)

theorem dropLoop_take_nil (s : Str) (n : Nat) (target : Int)
    (h : openai_cmc.dropLoop s target = []) :
    openai_cmc.dropLoop (s.take n) target = [] := by
  apply dropLoopF_nil_of_prefix_gt _ _ _ le_rfl
  intro k hk1 hk2
  have hA := dropLoopF_nil_prefix_gt s.length s target le_rfl h
  rw [List.take_take]
  have hlen : k ≤ n ∧ k ≤ s.length := by
    simp only [List.length_take] at hk2
    omega
  have hmin : min k n = k := by omega
  rw [hmin]
  exact hA k hk1 hlen.2

theorem openai_safe_truncate_idem (s : Str) (n : Nat) :
    openai_cmc.safe_truncate (openai_cmc.safe_truncate s n (pstr "...")) n (pstr "...") =
      openai_cmc.safe_truncate s n (pstr "...") := by
  have hsuf : openai_cmc.get_twitter_length (pstr "...") = (pstr "...").length := by decide
  by_cases h0 : s = []
  · subst h0
    rfl
  by_cases h1 : openai_cmc.get_twitter_length s ≤ n
  · have e1 : openai_cmc.safe_truncate s n (pstr "...") = s := by
      unfold openai_cmc.safe_truncate
      rw [if_neg h0, if_pos h1]
    rw [e1]
    exact e1
  by_cases h2 : openai_cmc.dropLoop s ((n : Int) - (pstr "...").length) = []
  · have e1 : openai_cmc.safe_truncate s n (pstr "...") = s.take n := by
      unfold openai_cmc.safe_truncate
      rw [if_neg h0, if_neg h1]
      dsimp only
      rw [if_pos h2]
    rw [e1]
    by_cases h3 : s.take n = []
    · rw [h3]
      rfl
    by_cases h4 : openai_cmc.get_twitter_length (s.take n) ≤ n
    · unfold openai_cmc.safe_truncate
      rw [if_neg h3, if_pos h4]
    · have hB : openai_cmc.dropLoop (s.take n) ((n : Int) - (pstr "...").length) = [] :=
        dropLoop_take_nil s n _ h2
      unfold openai_cmc.safe_truncate
      rw [if_neg h3, if_neg h4]
      dsimp only
      rw [if_pos hB, List.take_take]
      simp
  · have hb := openai_result_le s n (pstr "...") hsuf h2
    set r := openai_cmc.safe_truncate s n (pstr "...") with hr
    unfold openai_cmc.safe_truncate
    dsimp only
    split
    · rename_i h5
      exact h5.symm
    · rfl

/-! Claim theorems. -/

/-- C2 counterexample: both cited implementations break the unconditional
guarantee.  The utils.py degenerate branch returns a raw three-code-point
prefix of four rockets (weighted length 6 > 3); the openai copy's raw-prefix
branch fires even when the suffix fits inside the budget (budget 4, suffix
weighted length 3: result weighted length 5 > 4); and with a wide suffix the
openai copy can exceed the budget on its ordinary path (budget 10, two-rocket
suffix: result weighted length 11 > 10). -/
theorem c2_degenerate_branch_exceeds_budget :
    (utils.get_twitter_length
        (utils.safe_truncate (pstr "🚀🚀🚀🚀") 3 (pstr "...")) = 6 ∧
      ¬ utils.get_twitter_length
        (utils.safe_truncate (pstr "🚀🚀🚀🚀") 3 (pstr "...")) ≤ 3) ∧
    (openai_cmc.get_twitter_length (pstr "...") < 4 ∧
      openai_cmc.get_twitter_length
        (openai_cmc.safe_truncate (pstr "🚀🚀🚀🚀") 4 (pstr "...")) = 5 ∧
      ¬ openai_cmc.get_twitter_length
        (openai_cmc.safe_truncate (pstr "🚀🚀🚀🚀") 4 (pstr "...")) ≤ 4) ∧
    (openai_cmc.get_twitter_length
        (openai_cmc.safe_truncate (pstr "aaaaaaaaaaaa") 10 (pstr "🚀🚀")) = 11 ∧
      ¬ openai_cmc.get_twitter_length
        (openai_cmc.safe_truncate (pstr "aaaaaaaaaaaa") 10 (pstr "🚀🚀")) ≤ 10) := by
  refine ⟨⟨by decide, by decide⟩, ⟨by decide, by decide, by decide⟩, by decide, by decide⟩

/-- C2 (amended): the budget guarantee holds for utils.safe_truncate whenever
the suffix fits strictly inside the budget (so its degenerate raw-prefix
branch is not taken); for the openai_cmc_integration.py copy, whose target
uses the suffix's plain length, it holds whenever the suffix contains no wide
characters and the character-drop loop does not exhaust the text (so its
raw-prefix branch is not taken). -/
theorem c2_safe_truncate_within_budget (text : Str) (max_length : Nat) (suffix : Str) :
    (utils.get_twitter_length suffix < max_length →
      utils.get_twitter_length (utils.safe_truncate text max_length suffix) ≤
        max_length) ∧
    (openai_cmc.get_twitter_length suffix = suffix.length →
      openai_cmc.dropLoop text ((max_length : Int) - suffix.length) ≠ [] →
      openai_cmc.get_twitter_length (openai_cmc.safe_truncate text max_length suffix) ≤
        max_length) :=
  ⟨safe_truncate_gtl_le text max_length suffix, openai_result_le text max_length suffix⟩

/-- C2 witness: the amended guarantee at a concrete input, for both
implementations, with every hypothesis discharged. -/
theorem c2_safe_truncate_within_budget_witness :
    utils.get_twitter_length (pstr "...") < 8 ∧
    utils.get_twitter_length (utils.safe_truncate (pstr "hello world") 8 (pstr "...")) ≤ 8 ∧
    openai_cmc.get_twitter_length (pstr "...") = (pstr "...").length ∧
    openai_cmc.dropLoop (pstr "hello world") ((8 : Int) - (pstr "...").length) ≠ [] ∧
    openai_cmc.get_twitter_length
      (openai_cmc.safe_truncate (pstr "hello world") 8 (pstr "...")) ≤ 8 :=
  ⟨by decide,
    (c2_safe_truncate_within_budget (pstr "hello world") 8 (pstr "...")).1 (by decide),
    by decide, by decide,
    (c2_safe_truncate_within_budget (pstr "hello world") 8 (pstr "...")).2 (by decide)
      (by decide)⟩

/-- C6 counterexample: the formatting.py weighted length counts a run of two
adjacent rockets as one occurrence (3), not code-point count plus one per
wide code point (4), so the claim's per-code-point reading fails for that
copy of get_twitter_length. -/
theorem c6_run_counting_counterexample :
    formatting.get_twitter_length (pstr "🚀🚀") ≠
      (pstr "🚀🚀").length +
        ((pstr "🚀🚀").filter fun c => formatting.isWideFmt c).length := by
  decide

/-- C6 (amended): the utils.py weighted length is exactly the sum of
per-code-point weights (2 for wide-table code points, 1 otherwise), and both
the utils.py and formatting.py versions give 8 on "Hello 🌍"; the
formatting.py version counts each maximal run of adjacent wide code points
once, e.g. 3 on two adjacent rockets. -/
theorem c6_weighted_length_amended :
    (∀ s : Str, utils.get_twitter_length s =
      (s.map fun c => if utils.isWideUtils c then 2 else 1).sum) ∧
    utils.get_twitter_length (pstr "Hello 🌍") = 8 ∧
    formatting.get_twitter_length (pstr "Hello 🌍") = 8 ∧
    formatting.get_twitter_length (pstr "🚀🚀") = 3 := by
  refine ⟨?_, by decide, by decide, by decide⟩
  intro s
  rw [gtlU_eq]
  induction s with
  | nil => rfl
  | cons c cs ih =>
    simp only [List.filter_cons, List.map_cons, List.sum_cons]
    split <;> simp_all <;> omega

theorem utils_safe_truncate_idem (s : Str) (n : Nat) (h : 3 < n) :
    utils.safe_truncate (utils.safe_truncate s n (pstr "...")) n (pstr "...") =
      utils.safe_truncate s n (pstr "...") := by
  have h3 : utils.get_twitter_length (pstr "...") = 3 := by decide
  have hle := safe_truncate_gtl_le s n (pstr "...") (by omega)
  set r := utils.safe_truncate s n (pstr "...") with hr
  unfold utils.safe_truncate
  dsimp only
  split
  · rename_i h0; exact h0.symm
  · rfl

/-- C7: both cited safe_truncate implementations are idempotent with the
default suffix for budgets strictly above the suffix length: the second
application returns its input unchanged. -/
theorem c7_truncation_idempotent (s : Str) (n : Nat) (h : 3 < n) :
    (utils.safe_truncate (utils.safe_truncate s n (pstr "...")) n (pstr "...") =
      utils.safe_truncate s n (pstr "...")) ∧
    (openai_cmc.safe_truncate (openai_cmc.safe_truncate s n (pstr "...")) n (pstr "...") =
      openai_cmc.safe_truncate s n (pstr "...")) :=
  ⟨utils_safe_truncate_idem s n h, openai_safe_truncate_idem s n⟩

/-- C7 witness: idempotence of both implementations at a concrete input. -/
theorem c7_truncation_idempotent_witness :
    (utils.safe_truncate (utils.safe_truncate (pstr "hello world") 8 (pstr "...")) 8
        (pstr "...") =
      utils.safe_truncate (pstr "hello world") 8 (pstr "...")) ∧
    (openai_cmc.safe_truncate
        (openai_cmc.safe_truncate (pstr "hello world") 8 (pstr "...")) 8 (pstr "...") =
      openai_cmc.safe_truncate (pstr "hello world") 8 (pstr "...")) :=
  c7_truncation_idempotent (pstr "hello world") 8 (by decide)

/-- C9 counterexample: the four copies of get_twitter_length do not all agree:
utils.py counts the robot face (outside the six shared ranges) and counts
each adjacent rocket separately, unlike the formatting.py copy. -/
theorem c9_utils_copy_disagrees :
    utils.get_twitter_length (pstr "🤖") = 2 ∧
    formatting.get_twitter_length (pstr "🤖") = 1 ∧
    utils.get_twitter_length (pstr "🚀🚀") = 4 ∧
    formatting.get_twitter_length (pstr "🚀🚀") = 3 := by
  refine ⟨by decide, by decide, by decide, by decide⟩

/-- C9 (amended): the three run-counting copies in formatting.py, parser.py
and openai_cmc_integration.py agree on every string; the utils.py copy is the
one that differs. -/
theorem c9_three_copies_agree (s : Str) :
    formatting.get_twitter_length s = parser.get_twitter_length s ∧
    formatting.get_twitter_length s = openai_cmc.get_twitter_length s :=
  ⟨rfl, rfl⟩

/-- C1: the budget invariant fails: at this concrete input the assembled
tweet overflows, the safety net clips it to 277 code points plus an ellipsis,
and the clipped tweet still has weighted length 286 > 280 because the kept
prefix is full of wide characters. -/
theorem c1_single_safety_net_exceeds_limit :
    280 < formatting.get_twitter_length
      (formatting.format_twitter_single (pstr "T")
        ((List.replicate 90 (pstr "🚀z")).flatten) (pstr "#H") 270) := by
  decide

/-- C4 counterexample: on an empty body, format_twitter_single does not
refuse: it returns the header-plus-hashtags message text. -/
theorem c4_single_returns_message_on_empty :
    formatting.format_twitter_single (pstr "T") (pstr "") (pstr "#H") 270 =
      pstr "T\n\n#H" := by
  decide

/-- C4 (amended): on an empty or whitespace-only body, format_twitter_thread
signals by returning None, but format_twitter_single returns the fallback
title-plus-hashtags string and format_telegram_improved returns the fallback
bold-title-plus-hashtags string instead of refusing. -/
theorem c4_empty_input_behavior (title text hashtags : Str) (alpha ctx : Option Str)
    (h : pyStrip text = []) :
    formatting.format_twitter_thread title text hashtags alpha ctx = none ∧
    formatting.format_twitter_single title text hashtags 270 =
      formatting.safe_str (some title) (pstr "Update") 50 ++ pstr "\n\n" ++
        formatting.safe_str (some hashtags) [] 150 ∧
    formatting.format_telegram_improved title text hashtags =
      pstr "<b>" ++ formatting.safe_str (some title) (pstr "Crypto Update") 100 ++
        pstr "</b>\n\n" ++ formatting.safe_str (some hashtags) [] 200 := by
  have hempty : ∀ m : Nat, formatting.safe_str (some text) [] m = [] := by
    intro m
    simp [formatting.safe_str, h]
  refine ⟨?_, ?_, ?_⟩
  · simp [formatting.format_twitter_thread, hempty]
  · simp [formatting.format_twitter_single, hempty]
  · simp [formatting.format_telegram_improved, hempty]

/-- C4 witness: the amended behavior at a concrete whitespace-only body. -/
theorem c4_empty_input_behavior_witness :
    pyStrip (pstr " ") = [] ∧
    formatting.format_twitter_thread (pstr "T") (pstr " ") (pstr "#H") none none = none :=
  ⟨by decide,
    (c4_empty_input_behavior (pstr "T") (pstr " ") (pstr "#H") none none (by decide)).1⟩

/-- C5 counterexample: with a 250-weighted-unit title and 40-weighted-unit
hashtags under max_total 270, the available budget (-26) is far below the
minimum content threshold (100), yet smart_shorten_for_twitter signals
nothing: it proceeds to compose and returns a message string. -/
theorem c5_no_insufficient_budget_signal :
    (270 : Int) - ((parser.get_twitter_length (List.replicate 250 'A') : Int) +
      (parser.get_twitter_length ('#' :: List.replicate 39 'B') : Int) + 6) < 100 ∧
    parser.smart_shorten_for_twitter
        (pstr "Insufficient budget scenario test sentence.")
        (List.replicate 250 'A') ('#' :: List.replicate 39 'B') 270 =
      pstr "Insufficient b..." := by
  constructor
  · decide
  · decide

/-- C5 (amended): the code has no InsufficientBudget signal: whenever the
hashtags' weighted length is at most 50 the shrink ladder leaves them
untouched and smart_shorten_for_twitter proceeds to compose with the
original, possibly negative, available budget, returning a string. -/
theorem c5_ladder_proceeds_without_signal (text title hashtags : Str) (max_total : Nat)
    (h : parser.get_twitter_length hashtags ≤ 50) :
    parser.smart_shorten_for_twitter text title hashtags max_total =
      parser.smartComposeBody (parser.normalizeForTwitter text)
        ((max_total : Int) - ((parser.get_twitter_length title : Int) +
          (parser.get_twitter_length hashtags : Int) + 6)) := by
  unfold parser.smart_shorten_for_twitter
  have h80 : ¬ parser.get_twitter_length hashtags > 80 := by omega
  have h50 : ¬ 50 < parser.get_twitter_length hashtags := by omega
  simp [h80, h50]

/-- C5 witness: the amended statement at a concrete over-budget input. -/
theorem c5_ladder_proceeds_without_signal_witness :
    parser.get_twitter_length (pstr "#T") ≤ 50 ∧
    parser.smart_shorten_for_twitter (pstr "Short note.") (List.replicate 200 'C')
        (pstr "#T") 270 =
      parser.smartComposeBody (parser.normalizeForTwitter (pstr "Short note."))
        ((270 : Int) - ((parser.get_twitter_length (List.replicate 200 'C') : Int) +
          (parser.get_twitter_length (pstr "#T") : Int) + 6)) :=
  ⟨by decide,
    c5_ladder_proceeds_without_signal (pstr "Short note.") (List.replicate 200 'C')
      (pstr "#T") 270 (by decide)⟩

theorem safe_str_length_le (v : Option Str) (d : Str) (m : Nat) (hm : m ≠ 0)
    (hd : d.length ≤ m) : (formatting.safe_str v d m).length ≤ m := by
  cases v with
  | none => simpa [formatting.safe_str] using hd
  | some s =>
    simp only [formatting.safe_str]
    split
    · simp [List.length_take]
    · rename_i hcond
      push_neg at hcond
      have := hcond hm
      omega

/-- C8: the Telegram composer's result has at most MAX_TELEGRAM_LENGTH = 4000
code points, and the result equals the assembled message unless the latter
exceeds 4000 code points, in which case it is hard-truncated — by code-point
count, not weighted length — to 3997 characters plus the fixed ellipsis (the
empty-body fallback aside). -/
theorem c8_telegram_within_limit (title text hashtags : Str) :
    (formatting.format_telegram_improved title text hashtags).length ≤ 4000 ∧
    formatting.format_telegram_improved title text hashtags =
      (if formatting.safe_str (some text) [] 5000 = [] then
        pstr "<b>" ++ formatting.safe_str (some title) (pstr "Crypto Update") 100 ++
          pstr "</b>\n\n" ++ formatting.safe_str (some hashtags) [] 200
      else if 4000 < (formatting.telegramAssemble
          (formatting.safe_str (some title) (pstr "Crypto Update") 100)
          (formatting.safe_str (some text) [] 5000)
          (formatting.safe_str (some hashtags) [] 200)).length then
        (formatting.telegramAssemble
          (formatting.safe_str (some title) (pstr "Crypto Update") 100)
          (formatting.safe_str (some text) [] 5000)
          (formatting.safe_str (some hashtags) [] 200)).take 3997 ++ pstr "..."
      else formatting.telegramAssemble
        (formatting.safe_str (some title) (pstr "Crypto Update") 100)
        (formatting.safe_str (some text) [] 5000)
        (formatting.safe_str (some hashtags) [] 200)) := by
  have ht : (formatting.safe_str (some title) (pstr "Crypto Update") 100).length ≤ 100 :=
    safe_str_length_le _ _ _ (by omega) (by decide)
  have hh : (formatting.safe_str (some hashtags) [] 200).length ≤ 200 :=
    safe_str_length_le _ _ _ (by omega) (by simp)
  constructor
  · unfold formatting.format_telegram_improved
    dsimp only
    split
    · have h1 : (pstr "<b>").length = 3 := by decide
      have h2 : (pstr "</b>\n\n").length = 6 := by decide
      simp only [List.length_append]
      omega
    · split
      · have h3 : (pstr "...").length = 3 := by decide
        simp only [List.length_append, List.length_take]
        omega
      · rename_i hle
        omega
  · rfl

theorem pySplitAux_mem (s : List Char) : ∀ (cur : List Char) (t : Str),
    (∀ c ∈ cur, isSpaceChar c = false) → t ∈ pySplitAux s cur →
    t ≠ [] ∧ ∀ c ∈ t, isSpaceChar c = false := by
  induction s with
  | nil =>
    intro cur t hcur ht
    by_cases h : cur = []
    · simp [pySplitAux, h] at ht
    · simp only [pySplitAux, if_neg h, List.mem_singleton] at ht
      subst ht
      refine ⟨by simpa using h, ?_⟩
      intro c hc
      exact hcur c (by simpa using hc)
  | cons c cs ih =>
    intro cur t hcur ht
    simp only [pySplitAux] at ht
    by_cases hsp : isSpaceChar c
    · rw [if_pos hsp] at ht
      by_cases h0 : cur = []
      · rw [if_pos h0] at ht
        exact ih [] t (by simp) ht
      · rw [if_neg h0] at ht
        rcases List.mem_cons.mp ht with h1 | h1
        · subst h1
          refine ⟨by simpa using h0, ?_⟩
          intro d hd
          exact hcur d (by simpa using hd)
        · exact ih [] t (by simp) h1
    · rw [if_neg hsp] at ht
      refine ih (c :: cur) t ?_ ht
      intro d hd
      rcases List.mem_cons.mp hd with h1 | h1
      · subst h1; simpa using hsp
      · exact hcur d h1

theorem pySplit_tokens (s : Str) : ∀ t ∈ pySplit s, t ≠ [] ∧ ∀ c ∈ t, isSpaceChar c = false :=
  fun t ht => pySplitAux_mem s [] t (by simp) ht

theorem pyStrip_eq_self (t : Str) (h : ∀ c ∈ t, isSpaceChar c = false) : pyStrip t = t := by
  unfold pyStrip
  have h1 : t.dropWhile isSpaceChar = t := by
    cases t with
    | nil => rfl
    | cons c cs => simp [List.dropWhile_cons, h c (by simp)]
  rw [h1]
  have h2 : t.reverse.dropWhile isSpaceChar = t.reverse := by
    cases ht : t.reverse with
    | nil => rfl
    | cons c cs =>
      have hmem : c ∈ t := by
        have : c ∈ t.reverse := by rw [ht]; simp
        simpa using this
      simp [List.dropWhile_cons, h c hmem]
  rw [h2, List.reverse_reverse]

theorem pySplitAux_append_token (t : List Char) (h : ∀ c ∈ t, isSpaceChar c = false) :
    ∀ (rest cur : List Char), pySplitAux (t ++ rest) cur = pySplitAux rest (t.reverse ++ cur) := by
  induction t with
  | nil => intro rest cur; simp
  | cons c cs ih =>
    intro rest cur
    have hc : isSpaceChar c = false := h c (by simp)
    simp only [List.cons_append, pySplitAux, hc, Bool.false_eq_true, if_false]
    show pySplitAux (cs ++ rest) (c :: cur) = _
    rw [ih (fun d hd => h d (by simp [hd])) rest (c :: cur)]
    simp

theorem pySplit_joinSpace (l : List Str)
    (h : ∀ t ∈ l, t ≠ [] ∧ ∀ c ∈ t, isSpaceChar c = false) :
    pySplit (joinSpace l) = l := by
  induction l with
  | nil => rfl
  | cons t rest ih =>
    cases rest with
    | nil =>
      have ht := h t (by simp)
      show pySplitAux (joinSpace [t]) [] = [t]
      have e1 : joinSpace [t] = t := rfl
      rw [e1, ← List.append_nil t, pySplitAux_append_token t ht.2 [] []]
      simp [pySplitAux, ht.1]
    | cons u rest' =>
      have ht := h t (by simp)
      show pySplitAux (joinSpace (t :: u :: rest')) [] = t :: u :: rest'
      have e1 : joinSpace (t :: u :: rest') = t ++ ' ' :: joinSpace (u :: rest') := rfl
      rw [e1, pySplitAux_append_token t ht.2 (' ' :: joinSpace (u :: rest')) []]
      have hsp : isSpaceChar ' ' = true := by decide
      have hne : t.reverse ++ [] ≠ [] := by simpa using ht.1
      simp only [pySplitAux, hsp, if_true, if_neg hne]
      rw [List.append_nil, List.reverse_reverse]
      exact congrArg (t :: ·) (ih fun x hx => h x (by simp [hx]))

/-- C10: sanitize_hashtags returns at most max_count whitespace-separated
tokens; the returned tokens are a sublist of the input's tokens (so each
appears in the input and relative order is preserved), and every returned
token starts with the hash mark and has at most max_length characters after
it (over-long tags were skipped, never truncated). -/
theorem c10_sanitize_hashtags (hashtags : Str) (max_count max_length : Nat) :
    (pySplit (utils.sanitize_hashtags hashtags max_count max_length)).length ≤ max_count ∧
    List.Sublist (pySplit (utils.sanitize_hashtags hashtags max_count max_length))
      (pySplit hashtags) ∧
    ∀ t ∈ pySplit (utils.sanitize_hashtags hashtags max_count max_length),
      isPrefixStr (pstr "#") t = true ∧ t.length - 1 ≤ max_length := by
  unfold utils.sanitize_hashtags
  dsimp only
  split
  · simp [pySplit, pySplitAux]
  · have hmap : ((pySplit hashtags).filter fun t => isPrefixStr (pstr "#") t).map pyStrip =
        (pySplit hashtags).filter fun t => isPrefixStr (pstr "#") t := by
      have hid : ∀ x ∈ (pySplit hashtags).filter fun t => isPrefixStr (pstr "#") t,
          pyStrip x = x := by
        intro x hx
        exact pyStrip_eq_self x (pySplit_tokens hashtags x (List.mem_filter.mp hx).1).2
      calc ((pySplit hashtags).filter fun t => isPrefixStr (pstr "#") t).map pyStrip
          = ((pySplit hashtags).filter fun t => isPrefixStr (pstr "#") t).map id :=
            List.map_congr_left hid
        _ = _ := List.map_id _
    rw [hmap]
    split
    · simp [pySplit, pySplitAux]
    · rename_i hne htags
      set base := pySplit hashtags with hbase
      set R := (((base.filter fun t => isPrefixStr (pstr "#") t).filter
        fun t => decide (t.length - 1 ≤ max_length)).take max_count) with hR
      have hRmem : ∀ t ∈ R, t ∈ base := by
        intro t htm
        have h1 := List.mem_of_mem_take htm
        exact (List.mem_filter.mp (List.mem_filter.mp h1).1).1
      have hRtok : ∀ t ∈ R, t ≠ [] ∧ ∀ c ∈ t, isSpaceChar c = false := by
        intro t htm
        exact pySplit_tokens hashtags t (hRmem t htm)
      rw [pySplit_joinSpace R hRtok]
      refine ⟨?_, ?_, ?_⟩
      · rw [hR]
        simp [List.length_take]
      · have s1 : List.Sublist R ((base.filter fun t => isPrefixStr (pstr "#") t).filter
            fun t => decide (t.length - 1 ≤ max_length)) :=
          List.take_sublist max_count _
        have s2 : List.Sublist ((base.filter fun t => isPrefixStr (pstr "#") t).filter
            fun t => decide (t.length - 1 ≤ max_length))
            (base.filter fun t => isPrefixStr (pstr "#") t) := List.filter_sublist _
        have s3 : List.Sublist (base.filter fun t => isPrefixStr (pstr "#") t) base :=
          List.filter_sublist _
        exact s1.trans (s2.trans s3)
      · intro t htm
        have h1 := List.mem_of_mem_take htm
        have h2 := List.mem_filter.mp h1
        have h3 := List.mem_filter.mp h2.1
        refine ⟨h3.2, ?_⟩
        exact of_decide_eq_true h2.2

theorem batchLoop_length_le : ∀ (n : Nat) (rem tweets : List Str), rem.length ≤ n →
    tweets.length ≤ 4 → (formatting.batchLoop rem tweets).length ≤ 4 := by
  intro n
  induction n with
  | zero =>
    intro rem tweets h1 h2
    have : rem = [] := List.eq_nil_of_length_eq_zero (by omega)
    subst this
    simpa [formatting.batchLoop] using h2
  | succ n ih =>
    intro rem tweets h1 h2
    match rem with
    | [] => simpa [formatting.batchLoop] using h2
    | p :: ps =>
      rw [formatting.batchLoop]
      split
      · rename_i hlt
        apply ih
        · have hd : (ps.drop ((formatting.buildBatch1 p ps).2 - 1)).length ≤ ps.length := by
            simp [List.length_drop]
          simp only [List.length_cons] at h1
          omega
        · split
          · exact h2
          · simp only [List.length_append, List.length_cons, List.length_nil]
            omega
      · exact h2

theorem threadBase_length_le (title text : Str) :
    (formatting.threadBase title text).length ≤ 4 := by
  unfold formatting.threadBase
  dsimp only
  repeat' split
  all_goals first
    | exact batchLoop_length_le _ _ _ le_rfl (by simp)
    | simp

theorem threadTweets_length_le (title text hashtags : Str) (alpha ctx : Option Str) :
    (formatting.threadTweets title text hashtags alpha ctx).length ≤ 5 := by
  unfold formatting.threadTweets
  dsimp only
  have hb := threadBase_length_le title text
  split
  · simp only [List.length_append, List.length_cons, List.length_nil]
    omega
  · split
    · simp only [List.length_append, List.length_cons, List.length_nil]
      omega
    · omega

/-- C3: every thread that format_twitter_thread actually returns (every
non-None result) has at least 2 and at most MAX_THREAD_TWEETS = 5 tweets; a
candidate with fewer than 2 tweets is rejected as None. -/
theorem c3_thread_size_invariant (title text hashtags : Str) (alpha ctx : Option Str)
    (ts : List Str)
    (h : formatting.format_twitter_thread title text hashtags alpha ctx = some ts) :
    2 ≤ ts.length ∧ ts.length ≤ 5 := by
  unfold formatting.format_twitter_thread at h
  dsimp only at h
  split at h
  · exact absurd h (by simp)
  · split at h
    · exact absurd h (by simp)
    · rename_i h2
      have := Option.some.inj h
      subst this
      constructor
      · omega
      · exact threadTweets_length_le _ _ _ _ _

/-- C3 witness: a concrete returned thread of 2 tweets. -/
theorem c3_thread_size_invariant_witness :
    formatting.format_twitter_thread (pstr "T") (pstr "Hello world") (pstr "#A") none none =
      some [pstr "📰 T\n\nHello world\n\n🧵👇", pstr "#A"] ∧
    2 ≤ ([pstr "📰 T\n\nHello world\n\n🧵👇", pstr "#A"] : List Str).length ∧
    ([pstr "📰 T\n\nHello world\n\n🧵👇", pstr "#A"] : List Str).length ≤ 5 :=
  ⟨by decide,
    c3_thread_size_invariant (pstr "T") (pstr "Hello world") (pstr "#A") none none _ (by decide)⟩

-- quick sanity examples (mirror utils.py's self-test)
example : utils.get_twitter_length (pstr "Hello World") = 11 := by decide
example : utils.get_twitter_length (pstr "Hello 🌍") = 8 := by decide
example : utils.get_twitter_length (pstr "🚀🚀🚀") = 6 := by decide
example : utils.safe_truncate (pstr "hello world") 8 (pstr "...") = pstr "hello..." := by decide
example : utils.sanitize_hashtags (pstr "#MarketSentiment #Bitcoin #ETH") 2 10 = pstr "#Bitcoin #ETH" := by decide
